import Mathlib

/-!
# Verification of the Hangman game-state engine

A shallow embedding of the Hangman engine from `hangman.py` (class `HangMan`)
together with the win/lose checks the GUI performs in `main.py`
(`DisplayHangMann.play_hangman`), and proofs of the specification's claims
about them.

Modelling conventions:
* Python strings are `List Char`; `str.lower` / `str.isalpha` are modelled for
  the ASCII range by `Char.toLower` / `Char.isAlpha` (the engine only ever
  receives ordinary words and single-character guesses).
* The mutable object state of class `HangMan` is the record `HangManState`;
  each mutating method becomes a function from the old state to the new state
  (plus its returned/raised value).
* A raised `ValueError` is an `Except.error`; since `validate_input` raises
  before any field is written, an error leaves the caller's state untouched,
  which the wrapper `make_guess_run` makes explicit.
* `random.choice(unrevealed)` is modelled by a parameter `k : Nat` selecting
  the element at position `k % unrevealed.length`; theorems quantify over `k`,
  covering every possible random outcome.
-/

instance {ε α : Type} [DecidableEq ε] [DecidableEq α] : DecidableEq (Except ε α)
  | .error e, .error f => decidable_of_iff (e = f) (by simp)
  | .error _, .ok _ => .isFalse (by simp)
  | .ok _, .error _ => .isFalse (by simp)
  | .ok a, .ok b => decidable_of_iff (a = b) (by simp)

/-- Model of Python `str.lower()` on one character (ASCII range). -/
def pyLower (c : Char) : Char := c.toLower

/-- Model of Python `str.isalpha()` on one character (ASCII range). -/
def pyIsAlpha (c : Char) : Bool := c.isAlpha

/-- Model of Python `str.lower()` on a whole string. -/
def pyLowerStr (s : List Char) : List Char := s.map pyLower

/-- The placeholder marker used in the mask (`"_"` in the source). -/
def placeholder : Char := '_'

/-- The ASCII-art stage dictionary `hangman` of `hangman.py` (keys 0..6);
each value is the `(head, body, legs)` tuple.  Only its size matters to the
engine claims: the GUI derives the lives budget as `len(hangman) - 1`. -/
def hangman : List (String × String × String) :=
  [("   ", "   ", "   "),
   (" o ", "   ", "   "),
   (" o ", " | ", "   "),
   (" o ", "/| ", "   "),
   (" o ", "/|\\", "   "),
   (" o ", "/|\\", "/  "),
   (" o ", "/|\\ ", "/ \\")]

/-- The mistake bound used by the GUI (`len(hangman) - 1` in `main.py`). -/
def max_mistakes : Nat := hangman.length - 1

/-- The mutable state of class `HangMan`:
`answer` (the lowercased secret), `hint` (the mask), `wrong_guesses`,
`guessed_letters` and `consecutive_errors`. -/
structure HangManState where
  answer : List Char
  hint : List Char
  wrong_guesses : Nat
  guessed_letters : List Char
  consecutive_errors : Nat
deriving Repr, DecidableEq

/-- Constructor `HangMan.__init__(word)`: lowercase the word, build the mask with `'_'`
at alphabetic positions and the literal character elsewhere, start counters at
zero and `guessed_letters` empty.  The constructor takes only the word and
never fails. -/
def HangMan.init (word : List Char) : HangManState :=
  let answer := pyLowerStr word
  { answer := answer
    hint := answer.map (fun c => if pyIsAlpha c then placeholder else c)
    wrong_guesses := 0
    guessed_letters := []
    consecutive_errors := 0 }

/-- The three distinct `ValueError`s raised by `HangMan.validate_input`,
named after the spec's error taxonomy. -/
inductive GuessError where
  | invalidLength
  | notALetter
  | alreadyGuessed
deriving Repr, DecidableEq

/-- Method `HangMan.validate_input(guess)`: checked in source order — length exactly
one (else "You must enter exactly one letter"), alphabetic (else "You must
enter a letter"), not already guessed (else "was already guessed").  On
success the (single) character is returned. -/
def validate_input (s : HangManState) (guess : List Char) : Except GuessError Char :=
  match guess with
  | [c] =>
      if pyIsAlpha c = false then .error .notALetter
      else if c ∈ s.guessed_letters then .error .alreadyGuessed
      else .ok c
  | _ => .error .invalidLength

/-- The classification of a successful guess: whether the `if guess in
self.answer` branch of `make_guess` was taken. -/
inductive Outcome where
  | correct
  | incorrect
deriving Repr, DecidableEq

/-- The reveal loop of `make_guess`: `for i in range(len(answer)): if
answer[i] == guess: hint[i] = guess`, as a recursion on the mask carrying the
current index. -/
def revealFrom (answer : List Char) (c : Char) : Nat → List Char → List Char
  | _, [] => []
  | i, h :: hs =>
      (if answer.get? i = some c then c else h) :: revealFrom answer c (i + 1) hs

/-- The mask after revealing every position of `answer` equal to `c`. -/
def revealAll (answer hint : List Char) (c : Char) : List Char :=
  revealFrom answer c 0 hint

/-- Method `HangMan.make_guess(guess)`: lowercase the input, validate it, record it
in `guessed_letters`, then either reveal every occurrence and reset
`consecutive_errors` (correct) or increment `wrong_guesses` and
`consecutive_errors` (incorrect).  The source records the letter before
branching; since the branch touches disjoint fields, both updates are merged
into one record update per branch. -/
def make_guess (s : HangManState) (guess : List Char) :
    Except GuessError (HangManState × Outcome) :=
  match validate_input s (pyLowerStr guess) with
  | .error e => .error e
  | .ok c =>
      if c ∈ s.answer then
        .ok ({ s with guessed_letters := c :: s.guessed_letters
                      hint := revealAll s.answer s.hint c
                      consecutive_errors := 0 }, .correct)
      else
        .ok ({ s with guessed_letters := c :: s.guessed_letters
                      wrong_guesses := s.wrong_guesses + 1
                      consecutive_errors := s.consecutive_errors + 1 }, .incorrect)

/-- The state after a `make_guess` call as the caller sees it: on a raised
`ValueError` the object is unmodified (the raise precedes every write), so the
caller keeps the old state. -/
def make_guess_run (s : HangManState) (guess : List Char) : HangManState :=
  match make_guess s guess with
  | .error _ => s
  | .ok (s', _) => s'

/-- The information content of `give_hint`'s return value: either the
"No hint needed, you already know the word." string, or the hint message,
which names exactly the revealed character (`answer[index]`) and nothing
else — in particular not the position. -/
inductive HintResult where
  | noHintNeeded
  | revealedLetter (c : Char)
deriving Repr, DecidableEq

/-- The `unrevealed` list built at the top of `give_hint`: all indices `i`
with `hint[i] == "_"`, in increasing order. -/
def unrevealedPositions (hint : List Char) : List Nat :=
  (List.range hint.length).filter (fun i => hint.get? i = some placeholder)

/-- The position `random.choice(unrevealed)` picks, with the randomness made
explicit: parameter `k` selects the element `unrevealed[k % len(unrevealed)]`.
Quantifying over `k` covers every possible outcome of `random.choice`. -/
def hintIndex (s : HangManState) (k : Nat) : Nat :=
  let unrevealed := unrevealedPositions s.hint
  unrevealed.getD (k % unrevealed.length) 0

/-- Method `HangMan.give_hint()` with the random choice made explicit through `k`.
If no `'_'` remains the no-hint message is returned and nothing changes;
otherwise `hint[index] = answer[index]`, `consecutive_errors = 0`, and the
message names the revealed letter (and only the letter). -/
def give_hint (s : HangManState) (k : Nat) : HangManState × HintResult :=
  if placeholder ∈ s.hint then
    let index := hintIndex s k
    ({ s with hint := s.hint.set index (s.answer.getD index placeholder)
              consecutive_errors := 0 },
     .revealedLetter (s.answer.getD index placeholder))
  else
    (s, .noHintNeeded)

/-- The GUI's win check (`main.py`): `"_" not in self.game.hint`. -/
def is_won (s : HangManState) : Bool := decide (placeholder ∉ s.hint)

/-- The GUI's lose check (`main.py`): `self.game.wrong_guesses >= len(hangman) - 1`. -/
def is_lost (s : HangManState) : Bool := decide (s.wrong_guesses ≥ max_mistakes)

/-- The guessed-letters invariant of the spec: every alphabetic character in
`guessed_letters` has each of its occurrences in `answer` revealed at the
corresponding mask position. -/
def GuessedRevealed (s : HangManState) : Prop :=
  ∀ c ∈ s.guessed_letters, pyIsAlpha c = true →
    ∀ i < s.answer.length, s.answer.get? i = some c → s.hint.get? i = some c

instance (s : HangManState) : Decidable (GuessedRevealed s) := by
  unfold GuessedRevealed
  infer_instance

/-- The engine state after constructing on `"cat"` and correctly guessing
`'c'`; a concrete mid-game state used to instantiate theorems. -/
def catState : HangManState :=
  { answer := ['c', 'a', 't'], hint := ['c', '_', '_'],
    wrong_guesses := 0, guessed_letters := ['c'], consecutive_errors := 0 }

example : HangMan.init ['C', 'a', 't'] =
    { answer := ['c', 'a', 't'], hint := ['_', '_', '_'],
      wrong_guesses := 0, guessed_letters := [], consecutive_errors := 0 } := by
  decide

example : make_guess (HangMan.init ['c', 'a', 't']) ['C'] =
    .ok ({ answer := ['c', 'a', 't'], hint := ['c', '_', '_'],
           wrong_guesses := 0, guessed_letters := ['c'], consecutive_errors := 0 },
         .correct) := by decide

example : make_guess (HangMan.init ['c', 'a', 't']) ['z'] =
    .ok ({ answer := ['c', 'a', 't'], hint := ['_', '_', '_'],
           wrong_guesses := 1, guessed_letters := ['z'], consecutive_errors := 1 },
         .incorrect) := by decide

example : make_guess (HangMan.init ['c', 'a', 't']) ['a', 'b'] =
    .error .invalidLength := by decide

example : give_hint (HangMan.init ['a', 'a']) 0 =
    ({ answer := ['a', 'a'], hint := ['a', '_'],
       wrong_guesses := 0, guessed_letters := [], consecutive_errors := 0 },
     .revealedLetter 'a') := by decide

example : give_hint (HangMan.init ['a', 'a']) 1 =
    ({ answer := ['a', 'a'], hint := ['_', 'a'],
       wrong_guesses := 0, guessed_letters := [], consecutive_errors := 0 },
     .revealedLetter 'a') := by decide

example : is_won (HangMan.init [placeholder]) = false := by decide

example : max_mistakes = 6 := by decide

/-! ### Helper lemmas -/

/-- Python str.lower() fixes every non-alphabetic character (`toLower` only moves
`A`–`Z`). -/
theorem pyLower_of_not_alpha {c : Char} (h : pyIsAlpha c = false) : pyLower c = c := by
  have hu : c.isUpper = false := by
    unfold pyIsAlpha Char.isAlpha at h
    simp [Bool.or_eq_false_iff] at h
    exact h.1
  unfold pyLower Char.toLower
  rw [if_neg]
  rintro ⟨h1, h2⟩
  unfold Char.isUpper at hu
  simp at hu
  have h65 : (65 : UInt32) ≤ c.val := by
    rw [UInt32.le_def, BitVec.le_def]
    simpa [Char.toNat, UInt32.toNat] using h1
  have hgt := hu h65
  rw [UInt32.lt_def, BitVec.lt_def] at hgt
  have e90 : ((90 : UInt32).toBitVec).toNat = 90 := rfl
  simp only [Char.toNat, UInt32.toNat, e90] at h1 h2 hgt
  omega

theorem pyIsAlpha_placeholder : pyIsAlpha placeholder = false := by decide

theorem revealFrom_length (a : List Char) (c : Char) :
    ∀ (h : List Char) (n : Nat), (revealFrom a c n h).length = h.length
  | [], _ => rfl
  | x :: xs, n => by simp [revealFrom, revealFrom_length a c xs (n + 1)]

theorem revealFrom_get? (a : List Char) (c : Char) :
    ∀ (h : List Char) (n j : Nat),
      (revealFrom a c n h).get? j =
        (h.get? j).map fun x => if a.get? (n + j) = some c then c else x
  | [], n, j => by simp [revealFrom]
  | x :: xs, n, 0 => by simp [revealFrom]
  | x :: xs, n, j + 1 => by
      have ih := revealFrom_get? a c xs (n + 1) j
      simp only [revealFrom, List.get?_cons_succ, ih]
      have : n + 1 + j = n + (j + 1) := by omega
      rw [this]

theorem revealAll_get? (a h : List Char) (c : Char) (j : Nat) :
    (revealAll a h c).get? j =
      (h.get? j).map fun x => if a.get? j = some c then c else x := by
  simpa using revealFrom_get? a c h 0 j

theorem revealAll_length (a h : List Char) (c : Char) :
    (revealAll a h c).length = h.length := revealFrom_length a c h 0

theorem mem_unrevealedPositions {h : List Char} {i : Nat} :
    i ∈ unrevealedPositions h ↔ i < h.length ∧ h.get? i = some placeholder := by
  simp [unrevealedPositions]

theorem unrevealedPositions_ne_nil {h : List Char} (hm : placeholder ∈ h) :
    unrevealedPositions h ≠ [] := by
  obtain ⟨n, hn⟩ := List.get?_of_mem hm
  have hlt : n < h.length := by
    by_contra hge
    rw [List.get?_eq_none.mpr (Nat.le_of_not_lt hge)] at hn
    exact Option.noConfusion hn
  have : n ∈ unrevealedPositions h := mem_unrevealedPositions.mpr ⟨hlt, hn⟩
  exact List.ne_nil_of_mem this

theorem hintIndex_mem {s : HangManState} (k : Nat) (hm : placeholder ∈ s.hint) :
    hintIndex s k ∈ unrevealedPositions s.hint := by
  have hne := unrevealedPositions_ne_nil hm
  have hlt : k % (unrevealedPositions s.hint).length <
      (unrevealedPositions s.hint).length :=
    Nat.mod_lt _ (List.length_pos.mpr hne)
  unfold hintIndex
  rw [List.getD, List.get?_eq_get hlt]
  exact List.get_mem _ _ _

theorem give_hint_of_mem {s : HangManState} (k : Nat) (hm : placeholder ∈ s.hint) :
    give_hint s k =
      ({ s with hint := s.hint.set (hintIndex s k)
                  (s.answer.getD (hintIndex s k) placeholder)
                consecutive_errors := 0 },
       .revealedLetter (s.answer.getD (hintIndex s k) placeholder)) := by
  simp [give_hint, hm]

theorem give_hint_of_not_mem {s : HangManState} (k : Nat)
    (hm : placeholder ∉ s.hint) : give_hint s k = (s, .noHintNeeded) := by
  simp [give_hint, hm]

theorem validate_input_ok {s : HangManState} {g : List Char} {c : Char}
    (h : validate_input s g = .ok c) :
    g = [c] ∧ pyIsAlpha c = true ∧ c ∉ s.guessed_letters := by
  match g with
  | [] => exact absurd h (by simp [validate_input])
  | a :: b :: t => exact absurd h (by simp [validate_input])
  | [d] =>
      rw [show validate_input s [d] =
            (if pyIsAlpha d = false then .error .notALetter
             else if d ∈ s.guessed_letters then .error .alreadyGuessed
             else .ok d) from rfl] at h
      split_ifs at h with h1 h2
      injection h with hdc
      subst hdc
      exact ⟨rfl, by simpa using h1, h2⟩

theorem make_guess_ok_inv {s : HangManState} {g : List Char}
    {s' : HangManState} {o : Outcome}
    (h : make_guess s g = .ok (s', o)) :
    ∃ c, validate_input s (pyLowerStr g) = .ok c ∧
      ((c ∈ s.answer ∧ o = .correct ∧
        s' = { s with guessed_letters := c :: s.guessed_letters
                      hint := revealAll s.answer s.hint c
                      consecutive_errors := 0 }) ∨
       (c ∉ s.answer ∧ o = .incorrect ∧
        s' = { s with guessed_letters := c :: s.guessed_letters
                      wrong_guesses := s.wrong_guesses + 1
                      consecutive_errors := s.consecutive_errors + 1 })) := by
  unfold make_guess at h
  split at h
  · exact absurd h (by simp)
  · rename_i c heq
    refine ⟨c, heq, ?_⟩
    by_cases hc : c ∈ s.answer
    · rw [if_pos hc] at h
      injection h with hpair
      injection hpair with hs ho
      exact Or.inl ⟨hc, ho.symm, hs.symm⟩
    · rw [if_neg hc] at h
      injection h with hpair
      injection hpair with hs ho
      exact Or.inr ⟨hc, ho.symm, hs.symm⟩

theorem pyLowerStr_of_not_alpha :
    ∀ (l : List Char), (∀ c ∈ l, pyIsAlpha c = false) → pyLowerStr l = l
  | [], _ => rfl
  | x :: xs, h => by
      simp only [pyLowerStr, List.map_cons]
      rw [pyLower_of_not_alpha (h x (List.mem_cons_self x xs))]
      have hxs := pyLowerStr_of_not_alpha xs (fun c hc => h c (List.mem_cons_of_mem x hc))
      unfold pyLowerStr at hxs
      rw [hxs]

theorem mask_of_not_alpha :
    ∀ (l : List Char), (∀ c ∈ l, pyIsAlpha c = false) →
      (l.map fun c => if pyIsAlpha c then placeholder else c) = l
  | [], _ => rfl
  | x :: xs, h => by
      simp only [List.map_cons]
      rw [if_neg (by simp [h x (List.mem_cons_self x xs)]),
        mask_of_not_alpha xs (fun c hc => h c (List.mem_cons_of_mem x hc))]

theorem make_guess_of_ok {s : HangManState} {g : List Char} {c : Char}
    (hval : validate_input s (pyLowerStr g) = .ok c) :
    make_guess s g =
      if c ∈ s.answer then
        .ok ({ s with guessed_letters := c :: s.guessed_letters
                      hint := revealAll s.answer s.hint c
                      consecutive_errors := 0 }, .correct)
      else
        .ok ({ s with guessed_letters := c :: s.guessed_letters
                      wrong_guesses := s.wrong_guesses + 1
                      consecutive_errors := s.consecutive_errors + 1 },
             .incorrect) := by
  unfold make_guess
  rw [hval]

/-! ### Claim theorems -/

/-- C1: for every valid guess `c` (single alphabetic character, lowercased,
not already guessed), `make_guess` succeeds and adds `c` to
`guessed_letters`; if `c` occurs in the secret it reveals every position of
the secret equal to `c` in the mask, resets `consecutive_errors` to 0 and
leaves `wrong_guesses` unchanged; otherwise it leaves the mask unchanged and
increments both `wrong_guesses` and `consecutive_errors` by exactly 1. -/
theorem C1_submit_valid_guess (s : HangManState) (c : Char)
    (hAlpha : pyIsAlpha c = true) (hLower : pyLower c = c)
    (hNew : c ∉ s.guessed_letters) (hlen : s.hint.length = s.answer.length) :
    ∃ s' o, make_guess s [c] = .ok (s', o) ∧
      c ∈ s'.guessed_letters ∧
      (if c ∈ s.answer then
        o = .correct ∧
        (∀ i, s.answer.get? i = some c → s'.hint.get? i = some c) ∧
        s'.consecutive_errors = 0 ∧
        s'.wrong_guesses = s.wrong_guesses
      else
        o = .incorrect ∧
        s'.hint = s.hint ∧
        s'.wrong_guesses = s.wrong_guesses + 1 ∧
        s'.consecutive_errors = s.consecutive_errors + 1) := by
  have hval : validate_input s (pyLowerStr [c]) = .ok c := by
    simp [pyLowerStr, hLower, validate_input, hAlpha, hNew]
  by_cases hc : c ∈ s.answer
  · have hmk : make_guess s [c] =
        .ok ({ s with guessed_letters := c :: s.guessed_letters
                      hint := revealAll s.answer s.hint c
                      consecutive_errors := 0 }, .correct) := by
      rw [make_guess_of_ok hval, if_pos hc]
    refine ⟨_, _, hmk, List.mem_cons_self _ _, ?_⟩
    rw [if_pos hc]
    refine ⟨rfl, ?_, rfl, rfl⟩
    intro i hi
    show (revealAll s.answer s.hint c).get? i = some c
    have hilt : i < s.answer.length := by
      by_contra hge
      rw [List.get?_eq_none.mpr (Nat.le_of_not_lt hge)] at hi
      exact Option.noConfusion hi
    have hih : i < s.hint.length := by rw [hlen]; exact hilt
    rw [revealAll_get?, List.get?_eq_get hih, hi]
    simp
  · have hmk : make_guess s [c] =
        .ok ({ s with guessed_letters := c :: s.guessed_letters
                      wrong_guesses := s.wrong_guesses + 1
                      consecutive_errors := s.consecutive_errors + 1 }, .incorrect) := by
      rw [make_guess_of_ok hval, if_neg hc]
    refine ⟨_, _, hmk, List.mem_cons_self _ _, ?_⟩
    rw [if_neg hc]
    exact ⟨rfl, rfl, rfl, rfl⟩

/-- Witness for C1: guessing `'c'` on the fresh secret `"cat"`. -/
theorem C1_submit_valid_guess_witness :
    pyIsAlpha 'c' = true ∧ pyLower 'c' = 'c' ∧
    'c' ∉ (HangMan.init ['c', 'a', 't']).guessed_letters ∧
    (HangMan.init ['c', 'a', 't']).hint.length =
      (HangMan.init ['c', 'a', 't']).answer.length ∧
    (∃ s' o, make_guess (HangMan.init ['c', 'a', 't']) ['c'] = .ok (s', o) ∧
      'c' ∈ s'.guessed_letters ∧
      (if 'c' ∈ (HangMan.init ['c', 'a', 't']).answer then
        o = .correct ∧
        (∀ i, (HangMan.init ['c', 'a', 't']).answer.get? i = some 'c' →
           s'.hint.get? i = some 'c') ∧
        s'.consecutive_errors = 0 ∧
        s'.wrong_guesses = (HangMan.init ['c', 'a', 't']).wrong_guesses
      else
        o = .incorrect ∧
        s'.hint = (HangMan.init ['c', 'a', 't']).hint ∧
        s'.wrong_guesses = (HangMan.init ['c', 'a', 't']).wrong_guesses + 1 ∧
        s'.consecutive_errors =
          (HangMan.init ['c', 'a', 't']).consecutive_errors + 1)) :=
  ⟨by decide, by decide, by decide, by decide,
   C1_submit_valid_guess (HangMan.init ['c', 'a', 't']) 'c'
     (by decide) (by decide) (by decide) (by decide)⟩

/-- C2: `make_guess` validates in the fixed source order — wrong length fails
with `invalidLength`, a single non-alphabetic character with `notALetter`, an
already-guessed (lowercased) letter with `alreadyGuessed` — and on every
validation failure the caller's state is unchanged (the raise precedes every
write, as `make_guess_run` shows). -/
theorem C2_validation_order (s : HangManState) (g : List Char) :
    (g.length ≠ 1 → make_guess s g = .error .invalidLength) ∧
    (∀ c, g = [c] → pyIsAlpha (pyLower c) = false →
       make_guess s g = .error .notALetter) ∧
    (∀ c, g = [c] → pyIsAlpha (pyLower c) = true → pyLower c ∈ s.guessed_letters →
       make_guess s g = .error .alreadyGuessed) ∧
    (∀ e, make_guess s g = .error e → make_guess_run s g = s) := by
  refine ⟨?_, ?_, ?_, ?_⟩
  · intro hlen
    match g, hlen with
    | [], _ => rfl
    | a :: b :: t, _ => rfl
    | [a], hlen => exact absurd rfl hlen
  · rintro c rfl hna
    have hv : validate_input s (pyLowerStr [c]) = .error .notALetter := by
      simp [pyLowerStr, validate_input, hna]
    unfold make_guess
    rw [hv]
  · rintro c rfl ha hm
    have hv : validate_input s (pyLowerStr [c]) = .error .alreadyGuessed := by
      simp [pyLowerStr, validate_input, ha, hm]
    unfold make_guess
    rw [hv]
  · intro e he
    simp [make_guess_run, he]

/-- Witness for C2: the three failure kinds on concrete inputs, state
unchanged. -/
theorem C2_validation_order_witness :
    make_guess catState ['a', 'b'] = .error .invalidLength ∧
    make_guess catState ['3'] = .error .notALetter ∧
    make_guess catState ['C'] = .error .alreadyGuessed ∧
    make_guess_run catState ['C'] = catState :=
  ⟨(C2_validation_order catState ['a', 'b']).1 (by decide),
   (C2_validation_order catState ['3']).2.1 '3' rfl (by decide),
   (C2_validation_order catState ['C']).2.2.1 'C' rfl (by decide) (by decide),
   (C2_validation_order catState ['C']).2.2.2 .alreadyGuessed
     ((C2_validation_order catState ['C']).2.2.1 'C' rfl (by decide) (by decide))⟩

/-- C4: the GUI's win check is true iff no placeholder remains in the mask,
its lose check is true iff `wrong_guesses ≥ len(hangman) - 1`, and that bound
is 6; both checks are pure expressions over the state (functions of the state
in this embedding). -/
theorem C4_win_loss_conditions (s : HangManState) :
    (is_won s = true ↔ ∀ c ∈ s.hint, c ≠ placeholder) ∧
    (is_lost s = true ↔ s.wrong_guesses ≥ hangman.length - 1) ∧
    max_mistakes = hangman.length - 1 ∧ max_mistakes = 6 := by
  refine ⟨?_, ?_, rfl, by decide⟩
  · simp only [is_won, decide_eq_true_eq]
    constructor
    · intro h c hc he
      exact h (he ▸ hc)
    · intro h hc
      exact h placeholder hc rfl
  · simp [is_lost, max_mistakes]

/-- Witness for C4: the win/lose checks evaluated on the mid-game state of
`"cat"`. -/
theorem C4_win_loss_conditions_witness :
    (is_won catState = true ↔ ∀ c ∈ catState.hint, c ≠ placeholder) ∧
    (is_lost catState = true ↔ catState.wrong_guesses ≥ hangman.length - 1) ∧
    max_mistakes = hangman.length - 1 ∧ max_mistakes = 6 :=
  C4_win_loss_conditions catState

/-- C5, counterexample: construction on the empty secret does not fail — it
succeeds and returns the ordinary all-empty state (the constructor validates
nothing; it also takes no `max_mistakes` parameter, as its type in this
embedding shows — the bound `len(hangman) - 1` lives in the GUI). -/
theorem C5_counterexample_empty_secret :
    HangMan.init [] =
      { answer := [], hint := [], wrong_guesses := 0,
        guessed_letters := [], consecutive_errors := 0 } := by decide

/-- C5, amended: construction takes only the secret word and never fails —
for every secret, including the empty string, it produces a state with mask
length equal to the secret length and all counters zero; the mistake bound is
not a constructor parameter but the caller-side constant
`len(hangman) - 1 = 6`. -/
theorem C5_construction_total (w : List Char) :
    (HangMan.init w).hint.length = (HangMan.init w).answer.length ∧
    (HangMan.init w).wrong_guesses = 0 ∧
    (HangMan.init w).consecutive_errors = 0 ∧
    (HangMan.init w).guessed_letters = [] ∧
    max_mistakes = hangman.length - 1 ∧ max_mistakes = 6 := by
  refine ⟨?_, rfl, rfl, rfl, rfl, by decide⟩
  simp [HangMan.init]

/-- Witness for C5: the engine constructed on the empty secret. -/
theorem C5_construction_total_witness :
    (HangMan.init []).hint.length = (HangMan.init []).answer.length ∧
    (HangMan.init []).wrong_guesses = 0 ∧
    (HangMan.init []).consecutive_errors = 0 ∧
    (HangMan.init []).guessed_letters = [] ∧
    max_mistakes = hangman.length - 1 ∧ max_mistakes = 6 :=
  C5_construction_total []

/-- C6: construction lowercases the secret, builds a mask of the same length
with a placeholder at every alphabetic position and the literal character at
every non-alphabetic position, and starts with no guesses and zero
counters. -/
theorem C6_construction_state (w : List Char) :
    (HangMan.init w).answer = pyLowerStr w ∧
    (HangMan.init w).hint.length = w.length ∧
    (∀ i c, (HangMan.init w).answer.get? i = some c →
       (HangMan.init w).hint.get? i = some (if pyIsAlpha c then placeholder else c)) ∧
    (HangMan.init w).guessed_letters = [] ∧
    (HangMan.init w).wrong_guesses = 0 ∧
    (HangMan.init w).consecutive_errors = 0 := by
  refine ⟨rfl, ?_, ?_, rfl, rfl, rfl⟩
  · simp [HangMan.init, pyLowerStr]
  · intro i c hi
    have hi' : (pyLowerStr w).get? i = some c := hi
    show ((pyLowerStr w).map fun c => if pyIsAlpha c then placeholder else c).get? i = _
    rw [List.get?_map, hi']
    rfl

/-- Witness for C6: the secret `"a B"` — the space is pre-revealed, both
letters masked, the `'B'` lowercased. -/
theorem C6_construction_state_witness :
    (HangMan.init ['a', ' ', 'B']).answer = pyLowerStr ['a', ' ', 'B'] ∧
    (HangMan.init ['a', ' ', 'B']).hint.length = (['a', ' ', 'B'] : List Char).length ∧
    (∀ i c, (HangMan.init ['a', ' ', 'B']).answer.get? i = some c →
       (HangMan.init ['a', ' ', 'B']).hint.get? i =
         some (if pyIsAlpha c then placeholder else c)) ∧
    (HangMan.init ['a', ' ', 'B']).guessed_letters = [] ∧
    (HangMan.init ['a', ' ', 'B']).wrong_guesses = 0 ∧
    (HangMan.init ['a', ' ', 'B']).consecutive_errors = 0 :=
  C6_construction_state ['a', ' ', 'B']

/-- C3: `give_hint` never changes `wrong_guesses`; when a placeholder remains
it picks a position among the placeholder positions, replaces exactly that
placeholder with the secret's character at that position and resets
`consecutive_errors` to 0; when none remains it returns the no-hint message
and mutates nothing. -/
theorem C3_request_hint (s : HangManState) (k : Nat)
    (hlen : s.hint.length = s.answer.length) :
    (give_hint s k).1.wrong_guesses = s.wrong_guesses ∧
    (if placeholder ∈ s.hint then
       hintIndex s k ∈ unrevealedPositions s.hint ∧
       s.hint.get? (hintIndex s k) = some placeholder ∧
       (give_hint s k).1.hint.get? (hintIndex s k) = s.answer.get? (hintIndex s k) ∧
       (∀ j, j ≠ hintIndex s k → (give_hint s k).1.hint.get? j = s.hint.get? j) ∧
       (give_hint s k).1.consecutive_errors = 0
     else
       give_hint s k = (s, .noHintNeeded)) := by
  by_cases hm : placeholder ∈ s.hint
  · rw [give_hint_of_mem k hm, if_pos hm]
    have hidx := hintIndex_mem k hm
    obtain ⟨hlt, hph⟩ := mem_unrevealedPositions.mp hidx
    have hlta : hintIndex s k < s.answer.length := hlen ▸ hlt
    refine ⟨rfl, hidx, hph, ?_, ?_, rfl⟩
    · show (s.hint.set (hintIndex s k)
          (s.answer.getD (hintIndex s k) placeholder)).get? (hintIndex s k) =
          s.answer.get? (hintIndex s k)
      rw [List.get?_set_eq_of_lt _ hlt, List.get?_eq_get hlta]
      show some ((s.answer.get? (hintIndex s k)).getD placeholder) = _
      rw [List.get?_eq_get hlta]
      rfl
    · intro j hj
      exact List.get?_set_ne _ _ (Ne.symm hj)
  · rw [if_neg hm, give_hint_of_not_mem k hm]
    exact ⟨rfl, rfl⟩

/-- Witness for C3: a hint on the mid-game state of `"cat"` with `'c'`
guessed. -/
theorem C3_request_hint_witness :
    (give_hint catState 0).1.wrong_guesses = catState.wrong_guesses ∧
    (if placeholder ∈ catState.hint then
       hintIndex catState 0 ∈ unrevealedPositions catState.hint ∧
       catState.hint.get? (hintIndex catState 0) = some placeholder ∧
       (give_hint catState 0).1.hint.get? (hintIndex catState 0) =
         catState.answer.get? (hintIndex catState 0) ∧
       (∀ j, j ≠ hintIndex catState 0 →
          (give_hint catState 0).1.hint.get? j = catState.hint.get? j) ∧
       (give_hint catState 0).1.consecutive_errors = 0
     else
       give_hint catState 0 = (catState, .noHintNeeded)) :=
  C3_request_hint catState 0 (by decide)

/-- C7: the guessed-letters invariant — every alphabetic guessed character
has all its occurrences in the secret revealed in the mask — holds after
construction and is preserved (together with the mask-length equation it
needs) by every successful `make_guess` and by every `give_hint`. -/
theorem C7_guessed_revealed_invariant :
    (∀ w, (HangMan.init w).hint.length = (HangMan.init w).answer.length ∧
       GuessedRevealed (HangMan.init w)) ∧
    (∀ s g s' o, s.hint.length = s.answer.length → GuessedRevealed s →
       make_guess s g = .ok (s', o) →
       s'.hint.length = s'.answer.length ∧ GuessedRevealed s') ∧
    (∀ s k, s.hint.length = s.answer.length → GuessedRevealed s →
       (give_hint s k).1.hint.length = (give_hint s k).1.answer.length ∧
       GuessedRevealed (give_hint s k).1) := by
  refine ⟨?_, ?_, ?_⟩
  · intro w
    constructor
    · simp [HangMan.init]
    · intro c hc
      simp [HangMan.init] at hc
  · intro s g s' o hlen hInv hmk
    obtain ⟨c, hval, hcase⟩ := make_guess_ok_inv hmk
    obtain ⟨hg, hAlpha, hNew⟩ := validate_input_ok hval
    rcases hcase with ⟨hc, ho, hs⟩ | ⟨hc, ho, hs⟩
    · subst hs
      constructor
      · show (revealAll s.answer s.hint c).length = s.answer.length
        rw [revealAll_length, hlen]
      · intro d hd hda i hilt hget
        have hd' : d ∈ c :: s.guessed_letters := hd
        have hget' : s.answer.get? i = some d := hget
        have hilt' : i < s.answer.length := hilt
        have hih : i < s.hint.length := by rw [hlen]; exact hilt'
        show (revealAll s.answer s.hint c).get? i = some d
        rw [revealAll_get?, List.get?_eq_get hih]
        rcases List.mem_cons.mp hd' with hdc | hdold
        · subst hdc
          rw [hget']
          simp
        · have hold : s.hint.get? i = some d := hInv d hdold hda i hilt' hget'
          rw [List.get?_eq_get hih] at hold
          injection hold with hold
          simp only [Option.map_some']
          by_cases hcc : s.answer.get? i = some c
          · rw [if_pos hcc]
            rw [hget'] at hcc
            injection hcc with hcc
            rw [hcc]
          · rw [if_neg hcc, hold]
    · subst hs
      refine ⟨hlen, ?_⟩
      intro d hd hda i hilt hget
      have hd' : d ∈ c :: s.guessed_letters := hd
      have hget' : s.answer.get? i = some d := hget
      have hilt' : i < s.answer.length := hilt
      show s.hint.get? i = some d
      rcases List.mem_cons.mp hd' with hdc | hdold
      · subst hdc
        exact absurd (List.get?_mem hget') hc
      · exact hInv d hdold hda i hilt' hget'
  · intro s k hlen hInv
    by_cases hm : placeholder ∈ s.hint
    · rw [give_hint_of_mem k hm]
      have hidx := hintIndex_mem k hm
      obtain ⟨hlt, hph⟩ := mem_unrevealedPositions.mp hidx
      have hlta : hintIndex s k < s.answer.length := hlen ▸ hlt
      constructor
      · show (s.hint.set _ _).length = s.answer.length
        rw [List.length_set, hlen]
      · intro d hd hda i hilt hget
        have hd' : d ∈ s.guessed_letters := hd
        have hget' : s.answer.get? i = some d := hget
        have hilt' : i < s.answer.length := hilt
        show (s.hint.set (hintIndex s k)
            (s.answer.getD (hintIndex s k) placeholder)).get? i = some d
        by_cases hij : hintIndex s k = i
        · subst hij
          rw [List.get?_set_eq_of_lt _ hlt]
          show some ((s.answer.get? (hintIndex s k)).getD placeholder) = some d
          rw [hget']
          rfl
        · rw [List.get?_set_ne _ _ hij]
          exact hInv d hd' hda i hilt' hget'
    · rw [give_hint_of_not_mem k hm]
      exact ⟨hlen, hInv⟩

/-- Witness for C7: the invariant propagated through the correct guess `'c'`
on the fresh secret `"cat"`, landing in `catState`. -/
theorem C7_guessed_revealed_invariant_witness :
    catState.hint.length = catState.answer.length ∧ GuessedRevealed catState :=
  C7_guessed_revealed_invariant.2.1 (HangMan.init ['c', 'a', 't']) ['c'] catState
    .correct (by decide) (by decide) (by decide)

/-- C8, counterexample: on the secret `"aa"` with both positions hidden, the
hint that reveals position 0 and the hint that reveals position 1 return the
very same value, so the returned value cannot convey the revealed position —
the source's message string names only the letter `answer[index]`. -/
theorem C8_counterexample_position_not_returned :
    (give_hint (HangMan.init ['a', 'a']) 0).2 =
      (give_hint (HangMan.init ['a', 'a']) 1).2 ∧
    (give_hint (HangMan.init ['a', 'a']) 0).1.hint = ['a', placeholder] ∧
    (give_hint (HangMan.init ['a', 'a']) 1).1.hint = [placeholder, 'a'] := by decide

/-- C8, amended: when placeholders remain, `give_hint` returns the revealed
character (the secret's character at the selected position, which the new
mask now shows there) but not the position itself. -/
theorem C8_hint_returns_letter (s : HangManState) (k : Nat)
    (hlen : s.hint.length = s.answer.length) (hm : placeholder ∈ s.hint) :
    ∃ c, s.answer.get? (hintIndex s k) = some c ∧
      (give_hint s k).2 = .revealedLetter c ∧
      (give_hint s k).1.hint.get? (hintIndex s k) = some c := by
  have hidx := hintIndex_mem k hm
  obtain ⟨hlt, hph⟩ := mem_unrevealedPositions.mp hidx
  have hlta : hintIndex s k < s.answer.length := hlen ▸ hlt
  rw [give_hint_of_mem k hm]
  refine ⟨s.answer.getD (hintIndex s k) placeholder, ?_, rfl, ?_⟩
  · show s.answer.get? (hintIndex s k) =
      some ((s.answer.get? (hintIndex s k)).getD placeholder)
    rw [List.get?_eq_get hlta]
    rfl
  · show (s.hint.set (hintIndex s k)
      (s.answer.getD (hintIndex s k) placeholder)).get? (hintIndex s k) = _
    rw [List.get?_set_eq_of_lt _ hlt]

/-- Witness for C8: a hint on the mid-game state of `"cat"`. -/
theorem C8_hint_returns_letter_witness :
    ∃ c, catState.answer.get? (hintIndex catState 0) = some c ∧
      (give_hint catState 0).2 = .revealedLetter c ∧
      (give_hint catState 0).1.hint.get? (hintIndex catState 0) = some c :=
  C8_hint_returns_letter catState 0 (by decide) (by decide)

/-- C9, counterexample: the non-empty, non-alphabetic secret `"_"` — the
literal underscore in the mask is indistinguishable from a placeholder, so
the mask does contain a placeholder, the win condition is false, and
`give_hint` does not return the no-hint result. -/
theorem C9_counterexample_underscore_secret :
    (HangMan.init [placeholder]).hint = [placeholder] ∧
    is_won (HangMan.init [placeholder]) = false ∧
    (give_hint (HangMan.init [placeholder]) 0).2 ≠ HintResult.noHintNeeded := by
  decide

/-- C9, amended: for every non-empty secret with no alphabetic characters
and no literal underscore, the mask is the (lowercased) secret itself with
no placeholder, the win condition holds immediately with zero guesses, and
every `give_hint` returns the no-hint result without mutation. -/
theorem C9_non_alphabetic_secret (w : List Char) (hne : w ≠ [])
    (hna : ∀ c ∈ w, pyIsAlpha c = false) (hnp : ∀ c ∈ w, c ≠ placeholder) :
    (HangMan.init w).hint = pyLowerStr w ∧
    (HangMan.init w).hint = w ∧
    is_won (HangMan.init w) = true ∧
    (HangMan.init w).guessed_letters = [] ∧
    ∀ k, give_hint (HangMan.init w) k = (HangMan.init w, .noHintNeeded) := by
  have hmask : (HangMan.init w).hint = w := by
    show ((pyLowerStr w).map fun c => if pyIsAlpha c then placeholder else c) = w
    rw [pyLowerStr_of_not_alpha w hna]
    exact mask_of_not_alpha w hna
  have hnm : placeholder ∉ (HangMan.init w).hint := by
    rw [hmask]
    intro hmem
    exact hnp placeholder hmem rfl
  refine ⟨?_, hmask, ?_, rfl, ?_⟩
  · rw [hmask, pyLowerStr_of_not_alpha w hna]
  · simp [is_won, hnm]
  · intro k
    exact give_hint_of_not_mem k hnm

/-- Witness for C9: the secret `" "` (one space). -/
theorem C9_non_alphabetic_secret_witness :
    (HangMan.init [' ']).hint = pyLowerStr [' '] ∧
    (HangMan.init [' ']).hint = [' '] ∧
    is_won (HangMan.init [' ']) = true ∧
    (HangMan.init [' ']).guessed_letters = [] ∧
    ∀ k, give_hint (HangMan.init [' ']) k = (HangMan.init [' '], .noHintNeeded) :=
  C9_non_alphabetic_secret [' '] (by decide) (by decide) (by decide)

/-- C10, counterexample: on the secret `"_a"` (reachable by construction)
the hint can select the literal-underscore position and "reveal" the
character `'_'`; submitting that character is then rejected with
`notALetter`, not accepted as a correct guess. -/
theorem C10_counterexample_hinted_underscore :
    (give_hint (HangMan.init [placeholder, 'a']) 0).2 =
      .revealedLetter placeholder ∧
    make_guess ((give_hint (HangMan.init [placeholder, 'a']) 0).1) [placeholder] =
      .error .notALetter := by decide

/-- C10, amended: in any state satisfying the guessed-letters invariant
(with equal mask/secret lengths and a lowercased secret), an **alphabetic**
character revealed by `give_hint` was not in `guessed_letters`, and
submitting it afterwards succeeds, is classified correct, and reveals every
occurrence of it in the mask. -/
theorem C10_hinted_letter_guessable (s : HangManState) (k : Nat) (c : Char)
    (hlen : s.hint.length = s.answer.length)
    (hInv : GuessedRevealed s)
    (hLowAns : ∀ d ∈ s.answer, pyLower d = d)
    (hres : (give_hint s k).2 = .revealedLetter c)
    (hAlpha : pyIsAlpha c = true) :
    c ∉ s.guessed_letters ∧
    ∃ s', make_guess ((give_hint s k).1) [c] = .ok (s', .correct) ∧
      ∀ i, s.answer.get? i = some c → s'.hint.get? i = some c := by
  have hm : placeholder ∈ s.hint := by
    by_contra hmm
    rw [give_hint_of_not_mem k hmm] at hres
    exact HintResult.noConfusion hres
  have hidx := hintIndex_mem k hm
  obtain ⟨hlt, hph⟩ := mem_unrevealedPositions.mp hidx
  have hlta : hintIndex s k < s.answer.length := hlen ▸ hlt
  rw [give_hint_of_mem k hm] at hres
  injection hres with hc
  have hgetc : s.answer.get? (hintIndex s k) = some c := by
    rw [← hc]
    show s.answer.get? (hintIndex s k) =
      some ((s.answer.get? (hintIndex s k)).getD placeholder)
    rw [List.get?_eq_get hlta]
    rfl
  have hcmem : c ∈ s.answer := List.get?_mem hgetc
  have hnotg : c ∉ s.guessed_letters := by
    intro hcg
    have hrev := hInv c hcg hAlpha (hintIndex s k) hlta hgetc
    rw [hph] at hrev
    injection hrev with hpc
    rw [← hpc] at hAlpha
    exact absurd hAlpha (by decide)
  have h1 : (give_hint s k).1 =
      { s with
        hint := s.hint.set (hintIndex s k) (s.answer.getD (hintIndex s k) placeholder),
        consecutive_errors := 0 } := by
    rw [give_hint_of_mem k hm]
  have hval : validate_input
      { s with
        hint := s.hint.set (hintIndex s k) (s.answer.getD (hintIndex s k) placeholder),
        consecutive_errors := 0 } (pyLowerStr [c]) = .ok c := by
    have hlc : pyLower c = c := hLowAns c hcmem
    simp [pyLowerStr, hlc, validate_input, hAlpha, hnotg]
  have hmk := make_guess_of_ok hval
  have hcm1 : c ∈ ({ s with
      hint := s.hint.set (hintIndex s k) (s.answer.getD (hintIndex s k) placeholder),
      consecutive_errors := 0 } : HangManState).answer := hcmem
  rw [if_pos hcm1] at hmk
  rw [h1]
  refine ⟨hnotg, _, hmk, ?_⟩
  intro i hget
  have hilt : i < s.answer.length := by
    by_contra hge
    rw [List.get?_eq_none.mpr (Nat.le_of_not_lt hge)] at hget
    exact Option.noConfusion hget
  have hihs : i < (s.hint.set (hintIndex s k)
      (s.answer.getD (hintIndex s k) placeholder)).length := by
    rw [List.length_set, hlen]
    exact hilt
  show (revealAll s.answer (s.hint.set (hintIndex s k)
      (s.answer.getD (hintIndex s k) placeholder)) c).get? i = some c
  rw [revealAll_get?, List.get?_eq_get hihs, hget]
  simp

/-- Witness for C10: the fresh secret `"ab"`, hint revealing `'a'`, then
guessing `'a'`. -/
theorem C10_hinted_letter_guessable_witness :
    'a' ∉ (HangMan.init ['a', 'b']).guessed_letters ∧
    ∃ s', make_guess ((give_hint (HangMan.init ['a', 'b']) 0).1) ['a'] =
        .ok (s', .correct) ∧
      ∀ i, (HangMan.init ['a', 'b']).answer.get? i = some 'a' →
        s'.hint.get? i = some 'a' :=
  C10_hinted_letter_guessable (HangMan.init ['a', 'b']) 0 'a'
    (by decide) (by decide) (by decide) (by decide) (by decide)
